import Mathlib

/-!
# Verification of the mapsdk tile/view engine specification

This file gives a shallow embedding, in Lean 4, of the core tiling,
view-state, animation and projection code of the `mapsdk` repository
(`src/mapsdk/src/tiling.rs`, `src/mapsdk/src/map/context.rs`,
`src/mapsdk/src/map.rs`, `src/mapsdk/src/layer/tiled.rs`,
`src/mapsdk/src/render.rs`), and proves or refutes the frozen claims
about it.

Modelling conventions:
* Rust `f64` values are embedded as exact rationals (`ℚ`) where the code
  is purely arithmetical, and as real numbers (`ℝ`) for the perspective
  projection, which uses trigonometry.  Overflow and rounding are not
  modelled; the claims under study are about algorithm structure.
* Rust `usize` becomes `ℕ`, Rust `i32`/`i64` become `ℤ`.
* `f64::powf(x, 0.5)` (used once, in the rubber-band recentred zoom) and
  the `geo` crate's polygon-intersection test (an external dependency)
  are abstracted as function parameters: the claims quantify over them.
* Stateful methods of `MapContext` / `Map` become pure state-passing
  functions on an explicit context record.
-/

namespace Mapsdk

/-- Map-plane / screen coordinate with exact rational components
(embedding of `geo::Coord` as used by the tiling and context code). -/
structure Coord where
  x : ℚ
  y : ℚ
deriving DecidableEq, Repr

/-- Componentwise addition of `geo::Coord` (`impl Add for Coord`). -/
def Coord.add (a b : Coord) : Coord := ⟨a.x + b.x, a.y + b.y⟩

/-- Componentwise subtraction of `geo::Coord`. -/
def Coord.sub (a b : Coord) : Coord := ⟨a.x - b.x, a.y - b.y⟩

/-- Scalar multiplication of `geo::Coord` by a float. -/
def Coord.scale (a : Coord) (k : ℚ) : Coord := ⟨a.x * k, a.y * k⟩

instance : Add Coord := ⟨Coord.add⟩
instance : Sub Coord := ⟨Coord.sub⟩

/-- Embedding of Rust's `f64::clamp(lo, hi)` on exact rationals:
below `lo` gives `lo`, above `hi` gives `hi`, otherwise the input. -/
def clampQ (lo hi x : ℚ) : ℚ :=
  if x < lo then lo else if x > hi then hi else x

/-- `tiling.rs`: tile coordinate key `TileId { z: usize, x: i32, y: i32 }`. -/
structure TileId where
  z : ℕ
  x : ℤ
  y : ℤ
deriving DecidableEq, Repr

/-- `tiling.rs`: the tiling scheme (`struct Tiling`). -/
structure Tiling where
  tileSize : ℕ
  mapSize : ℚ
  originX : ℚ
  originY : ℚ
  zoomResolutions : List ℚ
deriving DecidableEq, Repr

namespace Tiling

/-- `Tiling::new`: resolutions are `map_size / tile_size / 2^i` for
`i` in `0..zooms`. -/
def new (tileSize : ℕ) (mapSize originX originY : ℚ) (zooms : ℕ) : Tiling :=
  { tileSize := tileSize
    mapSize := mapSize
    originX := originX
    originY := originY
    zoomResolutions :=
      (List.range zooms).map fun i => mapSize / (tileSize : ℚ) / 2 ^ i }

/-- `impl Default for Tiling`: Google's tiling scheme, 24 zoom levels. -/
def defaultTiling : Tiling :=
  new 256 40075016.68557848 (-20037508.342789244) 20037508.342789244 24

/-- `Tiling::get_resolution`. -/
def getResolution (t : Tiling) (zoom : ℕ) : ℚ :=
  if t.zoomResolutions.length = 0 then
    |t.originX| * 2 / (t.tileSize : ℚ)
  else
    let maxZoom := t.zoomResolutions.length - 1
    if zoom > maxZoom then t.zoomResolutions.getD maxZoom 0
    else t.zoomResolutions.getD zoom 0

/-- `Tiling::drill_down_tile_ids`: the children `level` zoom steps below
`tile_id`, enumerated x-major; empty unless `tile_id.z` is strictly
below the last zoom index. -/
def drillDownTileIds (t : Tiling) (tileId : TileId) (level : ℕ) : List TileId :=
  if tileId.z < t.zoomResolutions.length - 1 then
    let childZ := tileId.z + level
    let factor : ℤ := 2 ^ level
    (List.range (2 ^ level)).flatMap fun (i : ℕ) =>
      (List.range (2 ^ level)).map fun (j : ℕ) =>
        { z := childZ, x := tileId.x * factor + (i : ℤ), y := tileId.y * factor + (j : ℤ) }
  else
    []

/-- The `while left <= right` binary-search loop shared by
`get_closest_lower_zoom` (fuel-indexed; `fuel` bounds the number of
iterations, which the correctness lemma shows is sufficient). -/
def czlLoop (res : List ℚ) (r : ℚ) : ℕ → ℕ → ℕ → ℕ → ℕ
  | 0, _, _, zoom => zoom
  | fuel + 1, left, right, zoom =>
    if left ≤ right then
      let mid := left + (right - left) / 2
      let midVal := res.getD mid 0
      let zoom' := if midVal ≤ r then mid else zoom
      if midVal > r then czlLoop res r fuel (mid + 1) right zoom'
      else czlLoop res r fuel left (mid - 1) zoom'
    else
      zoom

/-- `Tiling::get_closest_lower_zoom`. -/
def getClosestLowerZoom (t : Tiling) (resolution : ℚ) : ℕ :=
  let res := t.zoomResolutions
  if 0 < res.length then
    if resolution ≥ res.getD 0 0 then 0
    else if resolution ≤ res.getD (res.length - 1) 0 then res.length - 1
    else czlLoop res resolution (res.length + 1) 0 (res.length - 1) 0
  else 0

/-- `Tiling::get_max_x_y`: `ceil(res(0)/res(zoom)) - 1`. -/
def getMaxXY (t : Tiling) (zoom : ℕ) : ℤ :=
  ⌈t.getResolution 0 / t.getResolution zoom⌉ - 1

/-- Map-plane axis-aligned rectangle (embedding of `geo::Rect`). -/
structure Rect where
  xmin : ℚ
  ymin : ℚ
  xmax : ℚ
  ymax : ℚ
deriving DecidableEq, Repr

/-- `Tiling::get_tile_bbox`. -/
def getTileBbox (t : Tiling) (tileId : TileId) : Option Rect :=
  if tileId.z < t.zoomResolutions.length then
    let res := t.zoomResolutions.getD tileId.z 0
    let tileMapSize := res * (t.tileSize : ℚ)
    let xmin := t.originX + (tileId.x : ℚ) * tileMapSize
    let xmax := xmin + tileMapSize
    let ymax := t.originY - (tileId.y : ℚ) * tileMapSize
    let ymin := ymax - tileMapSize
    some ⟨xmin, ymin, xmax, ymax⟩
  else
    none

/-- `Tiling::get_tile_id`: floor-divide the offset from the origin by the
tile's map span. -/
def getTileId (t : Tiling) (z : ℕ) (coord : Coord) : Option TileId :=
  if z < t.zoomResolutions.length then
    let res := t.zoomResolutions.getD z 0
    let tileMapSize := res * (t.tileSize : ℚ)
    some { z := z
           x := ⌊(coord.x - t.originX) / tileMapSize⌋
           y := ⌊(t.originY - coord.y) / tileMapSize⌋ }
  else
    none

/-- `Tiling::roll_up_tile_id`. -/
def rollUpTileId (t : Tiling) (tileId : TileId) (level : ℕ) : Option TileId :=
  if level ≤ tileId.z then
    let factor : ℤ := 2 ^ level
    some { z := tileId.z - level, x := tileId.x / factor, y := tileId.y / factor }
  else
    none

end Tiling

/-- `map.rs`: the subset of `MapOptions` the core algorithms read. -/
structure MapOptions where
  center : Coord
  maxFrameRate : ℕ
  pitchMax : ℚ
  tiling : Tiling
  zoom : ℕ
  zoomMax : ℕ
  zoomMin : ℕ
deriving DecidableEq, Repr

/-- `map/context.rs`: `MapState` (camera/view model).  `viewBounds` is the
lazily recomputed map-plane quadrilateral, stored as its exterior ring. -/
structure MapState where
  center : Coord
  mapResRatio : ℚ
  pitch : ℚ
  yaw : ℚ
  zoom : ℕ
  zoomRes : ℚ
  viewBounds : List Coord
  viewBoundsSeq : ℕ
  viewSeq : ℕ
deriving DecidableEq, Repr

/-- `map/context.rs`: `MapContext` (options + state + layer ids + the
`animating` flag).  Layers are modelled by their id keys. -/
structure MapContext where
  mapOptions : MapOptions
  mapState : MapState
  layers : List String
  animating : Bool
deriving DecidableEq, Repr

namespace MapContext

/-- `MapContext::set_center`: store the center and bump the view version. -/
def setCenter (ctx : MapContext) (center : Coord) : MapContext :=
  { ctx with mapState := { ctx.mapState with
      center := center
      viewSeq := ctx.mapState.viewSeq + 1 } }

/-- `MapContext::set_pitch_yaw`: store pitch/yaw and bump the view
version (the renderer camera update has no effect on this state). -/
def setPitchYaw (ctx : MapContext) (pitch yaw : ℚ) : MapContext :=
  { ctx with mapState := { ctx.mapState with
      pitch := pitch
      yaw := yaw
      viewSeq := ctx.mapState.viewSeq + 1 } }

/-- `MapContext::resize`: recompute the map resolution ratio from the
tile size and the smaller viewport dimension, and bump the view version. -/
def resize (ctx : MapContext) (width height : ℕ) : MapContext :=
  { ctx with mapState := { ctx.mapState with
      mapResRatio := (ctx.mapOptions.tiling.tileSize : ℚ) / (min width height : ℕ)
      viewSeq := ctx.mapState.viewSeq + 1 } }

/-- `MapContext::set_zoom_res`: clamp into the configured zoom-resolution
range unless animating; recompute the discrete zoom only when
`update_zoom` is set; bump the view version. -/
def setZoomRes (ctx : MapContext) (zoomRes : ℚ) (updateZoom : Bool) : MapContext :=
  let zoomResMax := ctx.mapOptions.tiling.getResolution ctx.mapOptions.zoomMin
  let zoomResMin := ctx.mapOptions.tiling.getResolution ctx.mapOptions.zoomMax
  let newZoomRes := if ctx.animating then zoomRes else clampQ zoomResMin zoomResMax zoomRes
  { ctx with mapState := { ctx.mapState with
      zoomRes := newZoomRes
      zoom := if updateZoom then ctx.mapOptions.tiling.getClosestLowerZoom newZoomRes
              else ctx.mapState.zoom
      viewSeq := ctx.mapState.viewSeq + 1 } }

/-- `MapContext::zoom_around`.  `pf` abstracts `f64::powf(·, 0.5)`, the
square root used by the rubber-band recentring branch. -/
def zoomAround (pf : ℚ → ℚ) (ctx : MapContext) (coord : Coord) (scalar : ℚ) : MapContext :=
  let zoomResMax := ctx.mapOptions.tiling.getResolution ctx.mapOptions.zoomMin
  let zoomResMin := ctx.mapOptions.tiling.getResolution ctx.mapOptions.zoomMax
  let zoomRes := ctx.mapState.zoomRes
  let newZoomRes := clampQ zoomResMin zoomResMax (zoomRes / scalar)
  let st := ctx.mapState
  let st :=
    if newZoomRes ≠ zoomRes then
      { st with
        zoom := ctx.mapOptions.tiling.getClosestLowerZoom newZoomRes
        center := coord + (st.center - coord).scale (newZoomRes / zoomRes) }
    else if newZoomRes = zoomResMax ∧ scalar < 1 then
      { st with
        center := st.center + (ctx.mapOptions.center - st.center).scale (pf (1 - scalar)) }
    else st
  { ctx with mapState := { st with zoomRes := newZoomRes, viewSeq := st.viewSeq + 1 } }

/-- Result of one `MapContext::redraw` pass: the new context, whether the
view bounds were recomputed, which layers had `layer.update` run, and
whether the render step ran. -/
structure RedrawResult where
  ctx : MapContext
  boundsRecomputed : Bool
  updatedLayers : List String
  rendered : Bool
deriving Repr

/-- `MapContext::redraw`.  `calcBounds` abstracts `calc_view_bounds`
(trigonometric; its value is irrelevant to the gating logic): the bounds
are recomputed exactly when the bounds version lags the view version,
layer updates are skipped while animating, and rendering always runs. -/
def redraw (calcBounds : MapContext → Option (List Coord)) (ctx : MapContext) :
    RedrawResult :=
  let recompute := ctx.mapState.viewBoundsSeq ≠ ctx.mapState.viewSeq
  let ctx1 :=
    if recompute then
      let st := ctx.mapState
      let st := match calcBounds ctx with
        | some vb => { st with viewBounds := vb }
        | none => st
      { ctx with mapState := { st with viewBoundsSeq := ctx.mapState.viewSeq } }
    else ctx
  { ctx := ctx1
    boundsRecomputed := recompute
    updatedLayers := if ctx1.animating then [] else ctx1.layers
    rendered := true }

end MapContext

/-- `map.rs`: `MapViewChange`, a partial view-state target. -/
structure MapViewChange where
  center : Option Coord
  zoomRes : Option ℚ
  pitch : Option ℚ
  yaw : Option ℚ
deriving DecidableEq, Repr

namespace Map

open MapContext

/-- `Map::cancel_anim`: abort the animation task and clear the
`animating` flag. -/
def cancelAnim (ctx : MapContext) : MapContext :=
  { ctx with animating := false }

/-- `Map::jump_to`: cancel any animation, then apply the present target
fields immediately through the context setters. -/
def jumpTo (ctx : MapContext) (change : MapViewChange) : MapContext :=
  let ctx := cancelAnim ctx
  let ctx := match change.center with
    | some center => ctx.setCenter center
    | none => ctx
  let ctx := match change.zoomRes with
    | some zoomRes => ctx.setZoomRes zoomRes true
    | none => ctx
  if change.pitch.isSome ∨ change.yaw.isSome then
    ctx.setPitchYaw (change.pitch.getD ctx.mapState.pitch)
      (change.yaw.getD ctx.mapState.yaw)
  else ctx

/-- Outcome of `Map::fly_to`: either a degenerate immediate jump (no
animation frames), or a spawned animation of `ticks` interpolation
frames starting from the given context with `animating` set. -/
inductive FlyToResult where
  | jumped (ctx : MapContext)
  | animating (ticks : ℕ) (ctx : MapContext)
deriving Repr

/-- `Map::fly_to`, entry logic: with `ticks = duration_ms / frame_interval`
at most 1 it is exactly `jump_to`; otherwise it cancels the running
animation and spawns a tick loop (whose body is `flyToTick`). -/
def flyTo (ctx : MapContext) (change : MapViewChange) (durationMs : ℕ)
    (zoomFactor : ℕ) : FlyToResult :=
  let frameInterval := 1000 / ctx.mapOptions.maxFrameRate
  let ticks := durationMs / frameInterval
  if ticks ≤ 1 then
    .jumped (jumpTo ctx change)
  else
    let _ := zoomFactor
    .animating ticks { cancelAnim ctx with animating := true }

/-- `Map::ease_to` is `fly_to` with `zoom_factor = 0`. -/
def easeTo (ctx : MapContext) (change : MapViewChange) (durationMs : ℕ) :
    FlyToResult :=
  flyTo ctx change durationMs 0

/-- One iteration of the `fly_to` tick loop (`map.rs`, the body of
`for i in 0..ticks`): eased interpolation of center, zoom resolution
(with the fly altitude factor) and pitch/yaw; the zoom resolution is
stored with `update_zoom = false`. -/
def flyToTick (ctx : MapContext) (change : MapViewChange)
    (fromCenter : Option Coord) (fromZoomRes fromPitch fromYaw : ℚ)
    (zoomUp : ℚ) (i ticks : ℕ) : MapContext :=
  let t := clampQ 0 1 ((i : ℚ) / (ticks : ℚ))
  let x := 1 - (1 - t) ^ 3
  let y := 1 - |1 / 2 - x| * 2
  let ctx := match fromCenter, change.center with
    | some fc, some tc => ctx.setCenter (fc.scale (1 - x) + tc.scale x)
    | _, _ => ctx
  let ctx :=
    let toZoomRes := change.zoomRes.getD fromZoomRes
    let zoomRes := (fromZoomRes * (1 - x) + toZoomRes * x) * (1 + zoomUp * y)
    ctx.setZoomRes zoomRes false
  if change.pitch.isSome ∨ change.yaw.isSome then
    let toPitch := change.pitch.getD fromPitch
    let toYaw := change.yaw.getD fromYaw
    ctx.setPitchYaw (fromPitch * (1 - x) + toPitch * x)
      (fromYaw * (1 - x) + toYaw * x)
  else ctx

end Map

/-! ## `layer/tiled.rs`: visible-tile enumeration and URL templating -/

/-- `geo`'s `Polygon::bounding_rect`, for a polygon given by its exterior
ring: the componentwise min/max over the ring's coordinates (`none` for
an empty ring). -/
def boundingRect : List Coord → Option Tiling.Rect
  | [] => none
  | c :: cs =>
    some (cs.foldl
      (fun r p => { xmin := min r.xmin p.x, ymin := min r.ymin p.y
                    xmax := max r.xmax p.x, ymax := max r.ymax p.y })
      ⟨c.x, c.y, c.x, c.y⟩)

/-- The quadrilateral built from a tile bbox in `tile_ids_in_view`
(`polygon![(xmin,ymax), (xmin,ymin), (xmax,ymin), (xmax,ymax)]`). -/
def tilePolygon (bbox : Tiling.Rect) : List Coord :=
  [⟨bbox.xmin, bbox.ymax⟩, ⟨bbox.xmin, bbox.ymin⟩,
   ⟨bbox.xmax, bbox.ymin⟩, ⟨bbox.xmax, bbox.ymax⟩]

/-- Rust's inclusive integer range `a..=b` as a list. -/
def intRange (a b : ℤ) : List ℤ :=
  (List.range (b + 1 - a).toNat).map fun (i : ℕ) => a + (i : ℤ)

/-- The per-tile keep test inside the `tile_ids_in_view` loops: the tile
bbox exists and its quadrilateral intersects the view bounds.  The `geo`
crate's polygon-intersection test is the abstract parameter `inter`. -/
def tileKept (inter : List Coord → List Coord → Bool) (t : Tiling)
    (viewBounds : List Coord) (tileId : TileId) : Bool :=
  match t.getTileBbox tileId with
  | some bbox => inter (tilePolygon bbox) viewBounds
  | none => false

/-- `tile_ids_in_view` (`layer/tiled.rs`): tile ids of the corner
rectangle of the view bounds' bounding rect at the current zoom, clamped
to `[0, max_x_y]`, filtered by intersection with the view bounds. -/
def tileIdsInView (inter : List Coord → List Coord → Bool) (t : Tiling)
    (ms : MapState) : List TileId :=
  let z := ms.zoom
  match boundingRect ms.viewBounds with
  | none => []
  | some viewRect =>
    match t.getTileId z ⟨viewRect.xmin, viewRect.ymax⟩,
        t.getTileId z ⟨viewRect.xmin, viewRect.ymin⟩,
        t.getTileId z ⟨viewRect.xmax, viewRect.ymax⟩,
        t.getTileId z ⟨viewRect.xmax, viewRect.ymin⟩ with
    | some lt, some lb, some rt, some rb =>
      let maxXY := t.getMaxXY z
      let minX := max (min (min (min lt.x lb.x) rt.x) rb.x) 0
      let maxX := min (max (max (max lt.x lb.x) rt.x) rb.x) maxXY
      let minY := max (min (min (min lt.y lb.y) rt.y) rb.y) 0
      let maxY := min (max (max (max lt.y lb.y) rt.y) rb.y) maxXY
      (intRange minX maxX).flatMap fun x =>
        (intRange minY maxY).flatMap fun y =>
          let tileId : TileId := ⟨z, x, y⟩
          if tileKept inter t ms.viewBounds tileId then [tileId] else []
    | _, _, _, _ => []

/-- Rust `str::replace` restricted to non-empty patterns: replace every
non-overlapping occurrence of `pat`, scanning left to right.  The scan
consumes at least one character per step, so `fuel = hay.length` makes
the fuel-indexed recursion total and faithful. -/
def replaceChars : ℕ → List Char → List Char → List Char → List Char
  | 0, hay, _, _ => hay
  | fuel + 1, hay, pat, rep =>
    match hay with
    | [] => []
    | c :: rest =>
      if pat ≠ [] ∧ pat.isPrefixOf (c :: rest) then
        rep ++ replaceChars fuel (rest.drop (pat.length - 1)) pat rep
      else
        c :: replaceChars fuel rest pat rep

/-- Rust `String::replace` on the string level. -/
def rustReplace (s pat rep : String) : String :=
  ⟨replaceChars s.data.length s.data pat.data rep.data⟩

/-- `format_tile_url` (`layer/tiled.rs`): substitute `{z}`, `{x}`, `{y}`,
then, when a non-empty subdomain list is supplied, substitute `{s}` by
the subdomain at index `(x + y).abs() % count`. -/
def formatTileUrl (urlTemplate : String) (z : ℕ) (x y : ℤ)
    (subdomains : Option (List String)) : String :=
  let url := rustReplace (rustReplace (rustReplace urlTemplate
    "{z}" (toString z)) "{x}" (toString x)) "{y}" (toString y)
  match subdomains with
  | some subs =>
    let count := subs.length
    if 0 < count then
      rustReplace url "{s}" (subs.getD ((x + y).natAbs % count) "")
    else url
  | none => url

/-! ## `map/context.rs` `to_map` / `to_screen`: perspective projection

The projection uses trigonometry, so it is embedded over `ℝ` (exact
reals in place of `f64`; the claim's 1e-6 tolerance covers float
rounding, which exact arithmetic eliminates). -/

/-- Map or screen coordinate with real components. -/
structure CoordR where
  x : ℝ
  y : ℝ

/-- 3-vector over `ℝ` (embedding of `glam::DVec3`). -/
structure V3 where
  x : ℝ
  y : ℝ
  z : ℝ

/-- Vector addition. -/
def V3.add (a b : V3) : V3 := ⟨a.x + b.x, a.y + b.y, a.z + b.z⟩

/-- Vector subtraction. -/
def V3.sub (a b : V3) : V3 := ⟨a.x - b.x, a.y - b.y, a.z - b.z⟩

/-- Scalar multiplication. -/
def V3.smul (k : ℝ) (a : V3) : V3 := ⟨k * a.x, k * a.y, k * a.z⟩

/-- Dot product. -/
def V3.dot (a b : V3) : ℝ := a.x * b.x + a.y * b.y + a.z * b.z

/-- Rotation about the X axis by `a` radians
(`DQuat::from_axis_angle(DVec3::X, a) * v`). -/
noncomputable def rotX (a : ℝ) (v : V3) : V3 :=
  ⟨v.x, v.y * Real.cos a - v.z * Real.sin a, v.y * Real.sin a + v.z * Real.cos a⟩

/-- Rotation about the Z axis by `a` radians
(`DQuat::from_axis_angle(DVec3::Z, a) * v`). -/
noncomputable def rotZ (a : ℝ) (v : V3) : V3 :=
  ⟨v.x * Real.cos a - v.y * Real.sin a, v.x * Real.sin a + v.y * Real.cos a, v.z⟩

/-- Rust `f64::to_radians`. -/
noncomputable def toRadians (d : ℝ) : ℝ := d * (Real.pi / 180)

/-- The view-state snapshot read by `to_map`/`to_screen`: viewport size,
pitch/yaw in degrees, map center and resolution. -/
structure ProjCtx where
  width : ℝ
  height : ℝ
  pitch : ℝ
  yaw : ℝ
  center : CoordR
  zoomRes : ℝ
  mapResRatio : ℝ

/-- The map camera's target: `(0, 0, 0)` (never changed after
`Camera::default`). -/
def cameraTarget : V3 := ⟨0, 0, 0⟩

/-- The map camera's eye (`MapRenderer::update_camera_position`):
`Quat(Z, yaw) * Quat(X, pitch) * (Z * height/2)`. -/
noncomputable def cameraEye (c : ProjCtx) : V3 :=
  rotZ (toRadians c.yaw) (rotX (toRadians c.pitch) ⟨0, 0, c.height / 2⟩)

/-- `MapContext::to_map`: cast a ray from the rotated screen offset and
intersect it with the map plane `z = target.z`. -/
noncomputable def toMap (c : ProjCtx) (s : CoordR) : CoordR :=
  let screenCenterX := c.width / 2
  let screenCenterY := c.height / 2
  let v0 : V3 := ⟨s.x - screenCenterX, screenCenterY - s.y, 0⟩
  let v1 := rotX (toRadians c.pitch) v0
  let v2 := rotZ (toRadians c.yaw) v1
  let target := cameraTarget
  let eye := cameraEye c
  let v := target.add v2
  let ray := v.sub eye
  let t := (target.dot ⟨0, 0, 1⟩ - v.dot ⟨0, 0, 1⟩) / ray.dot ⟨0, 0, 1⟩
  let p := v.add (V3.smul t ray)
  let mapRes := c.zoomRes * c.mapResRatio
  ⟨c.center.x + p.x * mapRes, c.center.y + p.y * mapRes⟩

/-- The z-component of the ray cast by `to_map` (used to state that the
ray is not parallel to the map plane). -/
noncomputable def toMapRayZ (c : ProjCtx) (s : CoordR) : ℝ :=
  let screenCenterX := c.width / 2
  let screenCenterY := c.height / 2
  let v0 : V3 := ⟨s.x - screenCenterX, screenCenterY - s.y, 0⟩
  let v1 := rotX (toRadians c.pitch) v0
  let v2 := rotZ (toRadians c.yaw) v1
  let v := cameraTarget.add v2
  (v.sub (cameraEye c)).dot ⟨0, 0, 1⟩

/-- `MapContext::to_screen`: intersect the `eye → target` ray direction,
offset to the map point, with the rotated screen plane, then undo the
yaw and pitch rotations. -/
noncomputable def toScreen (c : ProjCtx) (m : CoordR) : CoordR :=
  let s0 := rotX (toRadians c.pitch) ⟨0, 0, 1⟩
  let s1 := rotZ (toRadians c.yaw) s0
  let mapRes := c.zoomRes * c.mapResRatio
  let mp : V3 := ⟨(m.x - c.center.x) / mapRes, (m.y - c.center.y) / mapRes, 0⟩
  let target := cameraTarget
  let eye := cameraEye c
  let ray := target.sub eye
  let t := (target.dot s1 - mp.dot s1) / ray.dot s1
  let p := mp.add (V3.smul t ray)
  let v0 := p.sub target
  let v1 := rotZ (-(toRadians c.yaw)) v0
  let v2 := rotX (-(toRadians c.pitch)) v1
  ⟨c.width / 2 + v2.x, c.height / 2 - v2.y⟩

/-- The concrete view state used by the round-trip counterexample:
4×4 viewport, pitch 45°, yaw 0, unit resolution, centered at the
origin. -/
noncomputable def ctx45 : ProjCtx := ⟨4, 4, 45, 0, ⟨0, 0⟩, 1, 1⟩

/-- A pitch-0 view state with non-trivial yaw, center and resolution,
used by the round-trip witness. -/
noncomputable def ctx0 : ProjCtx := ⟨4, 4, 0, 30, ⟨5, 7⟩, 2, 1⟩

/-! ## Sample configurations used by witnesses and counterexamples -/

/-- A small concrete tiling: tile size 1, map size 8, four zoom levels,
resolutions `[8, 4, 2, 1]`. -/
def sampleTiling : Tiling := Tiling.new 1 8 (-4) 4 4

/-- Concrete map options over `sampleTiling`. -/
def sampleOptions : MapOptions :=
  { center := ⟨0, 0⟩, maxFrameRate := 60, pitchMax := 80, tiling := sampleTiling
    zoom := 0, zoomMax := 3, zoomMin := 0 }

/-- Concrete view state: zoom 1 (resolution 4), centered near the origin. -/
def sampleState : MapState :=
  { center := ⟨1, 2⟩, mapResRatio := 1, pitch := 0, yaw := 0, zoom := 1
    zoomRes := 4, viewBounds := [⟨-3, -3⟩, ⟨3, -3⟩, ⟨3, 3⟩, ⟨-3, 3⟩]
    viewBoundsSeq := 0, viewSeq := 1 }

/-- Concrete map context with one layer, not animating. -/
def sampleCtx : MapContext :=
  { mapOptions := sampleOptions, mapState := sampleState
    layers := ["base"], animating := false }

/-! ## Theorems -/

/-- Claim C7 (confirmed): in a redraw pass with the `animating` flag set
no layer is updated; with the flag clear every layer is updated; the
render step runs in both cases. -/
theorem redraw_skips_layer_updates_while_animating
    (calcBounds : MapContext → Option (List Coord)) (ctx : MapContext) :
    (ctx.animating = true → (MapContext.redraw calcBounds ctx).updatedLayers = []) ∧
    (ctx.animating = false →
      (MapContext.redraw calcBounds ctx).updatedLayers = ctx.layers) ∧
    (MapContext.redraw calcBounds ctx).rendered = true := by
  unfold MapContext.redraw
  refine ⟨fun h => ?_, fun h => ?_, ?_⟩ <;> simp only [] <;> split <;> simp [h]

/-- Claim C7 witness: on the concrete non-animating context every layer
is updated, and on the same context with the flag set none is. -/
theorem redraw_skips_layer_updates_while_animating_witness :
    (MapContext.redraw (fun _ => none) sampleCtx).updatedLayers = sampleCtx.layers ∧
    (MapContext.redraw (fun _ => none)
      { sampleCtx with animating := true }).updatedLayers = [] :=
  ⟨(redraw_skips_layer_updates_while_animating (fun _ => none) sampleCtx).2.1 (by decide),
   (redraw_skips_layer_updates_while_animating (fun _ => none)
      { sampleCtx with animating := true }).1 (by decide)⟩

/-- Claim C8 (confirmed): every view-state mutation strictly increases
the view version, and redraw recomputes the bounds exactly when the
bounds version differs from the view version, afterwards equalising the
two (so an immediate second redraw never recomputes). -/
theorem view_version_gates_bounds_recompute (ctx : MapContext) :
    (∀ c, (ctx.setCenter c).mapState.viewSeq > ctx.mapState.viewSeq) ∧
    (∀ zr u, (ctx.setZoomRes zr u).mapState.viewSeq > ctx.mapState.viewSeq) ∧
    (∀ p y, (ctx.setPitchYaw p y).mapState.viewSeq > ctx.mapState.viewSeq) ∧
    (∀ pf coord s, (ctx.zoomAround pf coord s).mapState.viewSeq > ctx.mapState.viewSeq) ∧
    (∀ w h, (ctx.resize w h).mapState.viewSeq > ctx.mapState.viewSeq) ∧
    (∀ cb, (MapContext.redraw cb ctx).boundsRecomputed = true ↔
      ctx.mapState.viewBoundsSeq ≠ ctx.mapState.viewSeq) ∧
    (∀ cb, (MapContext.redraw cb ctx).ctx.mapState.viewBoundsSeq =
      ctx.mapState.viewSeq) ∧
    (∀ cb, (MapContext.redraw cb ctx).ctx.mapState.viewSeq = ctx.mapState.viewSeq) ∧
    (∀ cb cb2, (MapContext.redraw cb2
      (MapContext.redraw cb ctx).ctx).boundsRecomputed = false) := by
  refine ⟨fun c => ?_, fun zr u => ?_, fun p y => ?_, fun pf coord s => ?_,
    fun w h => ?_, fun cb => ?_, fun cb => ?_, fun cb => ?_, fun cb cb2 => ?_⟩
  · simp [MapContext.setCenter]
  · simp [MapContext.setZoomRes]
  · simp [MapContext.setPitchYaw]
  · unfold MapContext.zoomAround
    simp only []
    split <;> [skip; split] <;> simp
  · simp [MapContext.resize]
  · unfold MapContext.redraw
    simp
  · unfold MapContext.redraw
    simp only []
    split
    · split <;> simp
    · simp_all
  · unfold MapContext.redraw
    simp only []
    split
    · split <;> simp
    · simp
  · unfold MapContext.redraw
    simp only []
    split
    · split <;> simp
    · simp_all

/-- Claim C10 (confirmed): `set_zoom_res` clamps only when not
animating, recomputes the discrete zoom only when `update_zoom` holds,
and every `fly_to` animation tick (which passes `update_zoom = false`)
leaves the discrete zoom unchanged. -/
theorem setZoomRes_clamp_and_zoom_gating (ctx : MapContext) (zr : ℚ) (u : Bool) :
    (ctx.animating = true → (ctx.setZoomRes zr u).mapState.zoomRes = zr) ∧
    (ctx.animating = false → (ctx.setZoomRes zr u).mapState.zoomRes =
      clampQ (ctx.mapOptions.tiling.getResolution ctx.mapOptions.zoomMax)
        (ctx.mapOptions.tiling.getResolution ctx.mapOptions.zoomMin) zr) ∧
    (u = false → (ctx.setZoomRes zr u).mapState.zoom = ctx.mapState.zoom) ∧
    (u = true → (ctx.setZoomRes zr u).mapState.zoom =
      ctx.mapOptions.tiling.getClosestLowerZoom
        (ctx.setZoomRes zr u).mapState.zoomRes) ∧
    (∀ change fc fzr fp fy zu i ticks,
      (Map.flyToTick ctx change fc fzr fp fy zu i ticks).mapState.zoom =
        ctx.mapState.zoom) := by
  refine ⟨fun h => ?_, fun h => ?_, fun h => ?_, fun h => ?_,
    fun change fc fzr fp fy zu i ticks => ?_⟩
  · simp [MapContext.setZoomRes, h]
  · simp [MapContext.setZoomRes, h]
  · simp [MapContext.setZoomRes, h]
  · simp [MapContext.setZoomRes, h]
  · unfold Map.flyToTick
    simp only []
    split <;>
      · split <;> simp [MapContext.setZoomRes, MapContext.setCenter,
          MapContext.setPitchYaw]

/-- Claim C10 witness: with the animating flag set, a resolution far
above the coarsest configured resolution (8) is stored unclamped, and a
tick does not change the discrete zoom. -/
theorem setZoomRes_clamp_and_zoom_gating_witness :
    (({ sampleCtx with animating := true }).setZoomRes 1000 false).mapState.zoomRes
      = 1000 ∧
    (Map.flyToTick sampleCtx ⟨none, some 1000, none, none⟩ none 4 0 0 2 1 10
      ).mapState.zoom = sampleCtx.mapState.zoom :=
  ⟨(setZoomRes_clamp_and_zoom_gating { sampleCtx with animating := true }
      1000 false).1 (by decide),
   (setZoomRes_clamp_and_zoom_gating sampleCtx 1000 false).2.2.2.2
      ⟨none, some 1000, none, none⟩ none 4 0 0 2 1 10⟩

/-- Claim C6 (confirmed): `ease_to` (and `fly_to`) with a duration of at
most one frame interval degenerates to exactly `jump_to`: the target is
applied immediately, the prior animation is cancelled (`animating` ends
false), and no animation frames are produced. -/
theorem short_ease_is_jump (ctx : MapContext) (change : MapViewChange)
    (durationMs zoomFactor : ℕ)
    (hratePos : 0 < ctx.mapOptions.maxFrameRate)
    (hrateMax : ctx.mapOptions.maxFrameRate ≤ 1000)
    (hdur : durationMs ≤ 1000 / ctx.mapOptions.maxFrameRate) :
    Map.easeTo ctx change durationMs = .jumped (Map.jumpTo ctx change) ∧
    Map.flyTo ctx change durationMs zoomFactor = .jumped (Map.jumpTo ctx change) ∧
    (Map.jumpTo ctx change).animating = false := by
  have hfi : 0 < 1000 / ctx.mapOptions.maxFrameRate :=
    Nat.div_pos hrateMax hratePos
  have hticks : durationMs / (1000 / ctx.mapOptions.maxFrameRate) ≤ 1 := by
    calc durationMs / (1000 / ctx.mapOptions.maxFrameRate)
        ≤ (1000 / ctx.mapOptions.maxFrameRate) /
            (1000 / ctx.mapOptions.maxFrameRate) := Nat.div_le_div_right hdur
      _ ≤ 1 := Nat.le_of_eq (Nat.div_self hfi)
  have hanim : (Map.jumpTo ctx change).animating = false := by
    unfold Map.jumpTo Map.cancelAnim
    rcases change with ⟨c, zr, p, y⟩
    rcases c <;> rcases zr <;>
      simp [MapContext.setCenter, MapContext.setZoomRes, MapContext.setPitchYaw] <;>
      split <;> simp
  refine ⟨?_, ?_, hanim⟩ <;>
    simp [Map.easeTo, Map.flyTo, hticks]

/-- Claim C6 witness: at 60 fps (frame interval 16 ms) a 16 ms ease on
the concrete context is exactly the corresponding jump. -/
theorem short_ease_is_jump_witness :
    Map.easeTo sampleCtx ⟨some ⟨3, 3⟩, some 2, none, none⟩ 16 =
      .jumped (Map.jumpTo sampleCtx ⟨some ⟨3, 3⟩, some 2, none, none⟩) :=
  (short_ease_is_jump sampleCtx ⟨some ⟨3, 3⟩, some 2, none, none⟩ 16 0
    (by decide) (by decide) (by decide)).1

/-- Claim C3 (confirmed): `zoom_around` clamps `old_res / scale` into the
configured resolution range; on an actual resolution change the center
is recomputed about the anchor; when the resolution is pinned at the
coarse (zoom-out) bound and `scale < 1` the center rubber-bands toward
the configured origin center by `powf(1 - scale, 0.5)` (abstracted as
`pf`); otherwise the center is unchanged. -/
theorem zoomAround_spec (pf : ℚ → ℚ) (ctx : MapContext) (coord : Coord)
    (scalar : ℚ) (hs : 0 < scalar) :
    (ctx.zoomAround pf coord scalar).mapState.zoomRes =
      clampQ (ctx.mapOptions.tiling.getResolution ctx.mapOptions.zoomMax)
        (ctx.mapOptions.tiling.getResolution ctx.mapOptions.zoomMin)
        (ctx.mapState.zoomRes / scalar) ∧
    ((ctx.zoomAround pf coord scalar).mapState.zoomRes ≠ ctx.mapState.zoomRes →
      (ctx.zoomAround pf coord scalar).mapState.center =
        coord + (ctx.mapState.center - coord).scale
          ((ctx.zoomAround pf coord scalar).mapState.zoomRes /
            ctx.mapState.zoomRes)) ∧
    ((ctx.zoomAround pf coord scalar).mapState.zoomRes = ctx.mapState.zoomRes →
      (ctx.zoomAround pf coord scalar).mapState.zoomRes =
        ctx.mapOptions.tiling.getResolution ctx.mapOptions.zoomMin → scalar < 1 →
      (ctx.zoomAround pf coord scalar).mapState.center =
        ctx.mapState.center + (ctx.mapOptions.center - ctx.mapState.center).scale
          (pf (1 - scalar))) ∧
    ((ctx.zoomAround pf coord scalar).mapState.zoomRes = ctx.mapState.zoomRes →
      ¬((ctx.zoomAround pf coord scalar).mapState.zoomRes =
          ctx.mapOptions.tiling.getResolution ctx.mapOptions.zoomMin ∧
        scalar < 1) →
      (ctx.zoomAround pf coord scalar).mapState.center = ctx.mapState.center) := by
  clear hs
  have hres : (ctx.zoomAround pf coord scalar).mapState.zoomRes =
      clampQ (ctx.mapOptions.tiling.getResolution ctx.mapOptions.zoomMax)
        (ctx.mapOptions.tiling.getResolution ctx.mapOptions.zoomMin)
        (ctx.mapState.zoomRes / scalar) := rfl
  refine ⟨hres, ?_, ?_, ?_⟩ <;> rw [hres]
  · intro hne
    have hcen : (ctx.zoomAround pf coord scalar).mapState.center =
        coord + (ctx.mapState.center - coord).scale
          (clampQ (ctx.mapOptions.tiling.getResolution ctx.mapOptions.zoomMax)
            (ctx.mapOptions.tiling.getResolution ctx.mapOptions.zoomMin)
            (ctx.mapState.zoomRes / scalar) / ctx.mapState.zoomRes) := by
      simp only [MapContext.zoomAround, if_pos hne]
    exact hcen
  · intro heq hmax hs1
    have hcen : (ctx.zoomAround pf coord scalar).mapState.center =
        ctx.mapState.center +
          (ctx.mapOptions.center - ctx.mapState.center).scale (pf (1 - scalar)) := by
      simp only [MapContext.zoomAround, if_neg (not_not_intro heq),
        if_pos (And.intro hmax hs1)]
    exact hcen
  · intro heq hnot
    have hcen : (ctx.zoomAround pf coord scalar).mapState.center =
        ctx.mapState.center := by
      simp only [MapContext.zoomAround, if_neg (not_not_intro heq), if_neg hnot]
    exact hcen

/-- Claim C3 witness: zooming in by 2 on the concrete context changes the
resolution from 4 to 2, and the center is recomputed about the anchor. -/
theorem zoomAround_spec_witness :
    (sampleCtx.zoomAround id ⟨0, 0⟩ 2).mapState.zoomRes ≠
      sampleCtx.mapState.zoomRes ∧
    (sampleCtx.zoomAround id ⟨0, 0⟩ 2).mapState.center =
      (⟨0, 0⟩ : Coord) + (sampleCtx.mapState.center - ⟨0, 0⟩).scale
        ((sampleCtx.zoomAround id ⟨0, 0⟩ 2).mapState.zoomRes /
          sampleCtx.mapState.zoomRes) :=
  ⟨by with_unfolding_all decide,
   (zoomAround_spec id sampleCtx ⟨0, 0⟩ 2 (by with_unfolding_all decide)).2.1
     (by with_unfolding_all decide)⟩

/-- Length of a `flatMap` whose pieces all have the same length. -/
theorem length_flatMap_const {α β : Type} (l : List α) (g : α → List β) (m : ℕ)
    (h : ∀ a ∈ l, (g a).length = m) : (l.flatMap g).length = l.length * m := by
  induction l with
  | nil => simp
  | cons a l ih =>
    simp only [List.flatMap_cons, List.length_append, List.length_cons,
      h a (List.mem_cons_self a l), ih fun b hb => h b (List.mem_cons_of_mem a hb)]
    ring

/-- Claim C5 (corrected): for a tile strictly above the last zoom level,
`drill_down_tile_ids` returns exactly `4^level` children at zoom
`z + level`, with `x` and `y` ranging over the `2^level`-wide blocks
starting at `x * 2^level` and `y * 2^level`. -/
theorem drillDownTileIds_children (t : Tiling) (tid : TileId) (level : ℕ)
    (hz : tid.z < t.zoomResolutions.length - 1) :
    (t.drillDownTileIds tid level).length = 4 ^ level ∧
    (∀ c ∈ t.drillDownTileIds tid level,
      c.z = tid.z + level ∧
      tid.x * (2 : ℤ) ^ level ≤ c.x ∧
      c.x ≤ tid.x * (2 : ℤ) ^ level + ((2 : ℤ) ^ level - 1) ∧
      tid.y * (2 : ℤ) ^ level ≤ c.y ∧
      c.y ≤ tid.y * (2 : ℤ) ^ level + ((2 : ℤ) ^ level - 1)) ∧
    (∀ x y : ℤ,
      tid.x * (2 : ℤ) ^ level ≤ x →
      x ≤ tid.x * (2 : ℤ) ^ level + ((2 : ℤ) ^ level - 1) →
      tid.y * (2 : ℤ) ^ level ≤ y →
      y ≤ tid.y * (2 : ℤ) ^ level + ((2 : ℤ) ^ level - 1) →
      (⟨tid.z + level, x, y⟩ : TileId) ∈ t.drillDownTileIds tid level) := by
  unfold Tiling.drillDownTileIds
  rw [if_pos hz]
  refine ⟨?_, ?_, ?_⟩
  · rw [length_flatMap_const _ _ (2 ^ level) fun a _ => by
      rw [List.length_map, List.length_range]]
    rw [List.length_range, ← Nat.mul_pow]
  · intro c hc
    simp only [List.mem_flatMap, List.mem_map, List.mem_range] at hc
    obtain ⟨i, hi, j, hj, rfl⟩ := hc
    have hi2 : ((i : ℤ)) < (2 : ℤ) ^ level := by exact_mod_cast hi
    have hj2 : ((j : ℤ)) < (2 : ℤ) ^ level := by exact_mod_cast hj
    refine ⟨rfl, ?_, ?_, ?_, ?_⟩ <;> dsimp only <;> omega
  · intro x y hx1 hx2 hy1 hy2
    simp only [List.mem_flatMap, List.mem_map, List.mem_range]
    have hxn : (0 : ℤ) ≤ x - tid.x * (2 : ℤ) ^ level := by omega
    have hyn : (0 : ℤ) ≤ y - tid.y * (2 : ℤ) ^ level := by omega
    have hxl : x - tid.x * (2 : ℤ) ^ level < (2 : ℤ) ^ level := by omega
    have hyl : y - tid.y * (2 : ℤ) ^ level < (2 : ℤ) ^ level := by omega
    refine ⟨(x - tid.x * (2 : ℤ) ^ level).toNat, ?_,
      (y - tid.y * (2 : ℤ) ^ level).toNat, ?_, ?_⟩
    · have h1 : (((x - tid.x * (2 : ℤ) ^ level).toNat : ℤ)) <
          (((2 : ℕ) ^ level : ℕ) : ℤ) := by
        rw [Int.toNat_of_nonneg hxn]; push_cast; exact hxl
      exact_mod_cast h1
    · have h1 : (((y - tid.y * (2 : ℤ) ^ level).toNat : ℤ)) <
          (((2 : ℕ) ^ level : ℕ) : ℤ) := by
        rw [Int.toNat_of_nonneg hyn]; push_cast; exact hyl
      exact_mod_cast h1
    · simp only [TileId.mk.injEq, true_and]
      refine ⟨?_, ?_⟩ <;> rw [Int.toNat_of_nonneg (by omega)] <;> ring

/-- Claim C5 witness: a mid-pyramid tile of the default tiling has
exactly four children one level down, in the expected coordinate block. -/
theorem drillDownTileIds_children_witness :
    (Tiling.defaultTiling.drillDownTileIds ⟨2, 1, 2⟩ 1).length = 4 ^ 1 ∧
    (⟨3, 2, 4⟩ : TileId) ∈ Tiling.defaultTiling.drillDownTileIds ⟨2, 1, 2⟩ 1 :=
  ⟨(drillDownTileIds_children Tiling.defaultTiling ⟨2, 1, 2⟩ 1 (by decide)).1,
   (drillDownTileIds_children Tiling.defaultTiling ⟨2, 1, 2⟩ 1 (by decide)).2.2
     2 4 (by decide) (by decide) (by decide) (by decide)⟩

/-- Claim C5 counterexample: at the last zoom level of the default
tiling (z = 23 of 24 levels) `drill_down_tile_ids` returns the empty
list, not `4^level` children. -/
theorem drillDownTileIds_empty_at_max_zoom :
    Tiling.defaultTiling.drillDownTileIds ⟨23, 0, 0⟩ 1 = [] ∧
    (Tiling.defaultTiling.drillDownTileIds ⟨23, 0, 0⟩ 1).length ≠ 4 ^ 1 := by
  constructor <;> decide

/-- Claim C9 (confirmed): `format_tile_url` substitutes `{z}`, `{x}`,
`{y}`; a non-empty subdomain list substitutes `{s}` by the entry at
`(x + y).abs % count` (the §8 example yields `http://b.x/2/0/1.png`);
with no list, or an empty one, `{s}` is left untouched. -/
theorem formatTileUrl_spec :
    (formatTileUrl "http://{s}.x/{z}/{x}/{y}.png" 2 0 1 (some ["a", "b", "c"]) =
      "http://b.x/2/0/1.png") ∧
    (formatTileUrl "http://{s}.x/{z}/{x}/{y}.png" 2 0 1 none =
      "http://{s}.x/2/0/1.png") ∧
    (∀ url z x y, formatTileUrl url z x y (some []) = formatTileUrl url z x y none) ∧
    (∀ url z x y subs, 0 < subs.length →
      formatTileUrl url z x y (some subs) =
        rustReplace (formatTileUrl url z x y none) "{s}"
          (subs.getD ((x + y).natAbs % subs.length) "")) := by
  refine ⟨by decide, by decide, fun url z x y => rfl, fun url z x y subs h => ?_⟩
  simp [formatTileUrl, h]

/-- Claim C9 witness: the subdomain-index rule applied at a concrete
non-trivial input, via the general substitution property. -/
theorem formatTileUrl_spec_witness :
    formatTileUrl "http://{s}.host/{z}/{x}/{y}" 5 (-3) 1 (some ["a", "b"]) =
      rustReplace (formatTileUrl "http://{s}.host/{z}/{x}/{y}" 5 (-3) 1 none)
        "{s}" (["a", "b"].getD (((-3) + 1 : ℤ).natAbs % 2) "") :=
  formatTileUrl_spec.2.2.2 "http://{s}.host/{z}/{x}/{y}" 5 (-3) 1 ["a", "b"]
    (by decide)

/-- Invariant-based correctness of the `get_closest_lower_zoom` binary
search: on a table that is antitone in the index, with the first entry
above `r` and the last entry at most `r`, the loop returns the smallest
index whose resolution is at most `r`. -/
theorem czlLoop_first_le (res : List ℚ) (r : ℚ)
    (hmono : ∀ i j : ℕ, i ≤ j → j < res.length → res.getD j 0 ≤ res.getD i 0)
    (h0 : r < res.getD 0 0)
    (hlast : res.getD (res.length - 1) 0 ≤ r) :
    ∀ fuel left right zoom,
      right < res.length →
      left ≤ right + 1 →
      (∀ j < left, r < res.getD j 0) →
      (∀ j, right < j → j < res.length → res.getD j 0 ≤ r) →
      (right + 1 < res.length → zoom = right + 1) →
      right + 1 - left < fuel →
      (Tiling.czlLoop res r fuel left right zoom < res.length ∧
       res.getD (Tiling.czlLoop res r fuel left right zoom) 0 ≤ r ∧
       ∀ j < Tiling.czlLoop res r fuel left right zoom, r < res.getD j 0) := by
  intro fuel
  induction fuel with
  | zero => intro left right zoom _ _ _ _ _ hfuel; omega
  | succ fuel ih =>
    intro left right zoom hright hlr hfalse htrue hzoom hfuel
    by_cases hlr2 : left ≤ right
    · have hmid1 : left ≤ left + (right - left) / 2 := Nat.le_add_right _ _
      have hmid2 : left + (right - left) / 2 ≤ right := by omega
      have hmidlen : left + (right - left) / 2 < res.length :=
        lt_of_le_of_lt hmid2 hright
      by_cases hgt : res.getD (left + (right - left) / 2) 0 > r
      · have hcond : ¬(res.getD (left + (right - left) / 2) 0 ≤ r) :=
          not_le.mpr hgt
        simp only [Tiling.czlLoop, if_pos hlr2, if_neg hcond, if_pos hgt]
        refine ih (left + (right - left) / 2 + 1) right zoom hright (by omega)
          ?_ htrue hzoom (by omega)
        intro j hj
        rcases Nat.lt_or_ge j left with hjl | hjl
        · exact hfalse j hjl
        · exact lt_of_lt_of_le hgt (hmono j (left + (right - left) / 2)
            (by omega) hmidlen)
      · have hle : res.getD (left + (right - left) / 2) 0 ≤ r := not_lt.mp hgt
        have hmid0 : 1 ≤ left + (right - left) / 2 := by
          by_contra hm
          have hz : left + (right - left) / 2 = 0 := by omega
          rw [hz] at hle
          exact absurd hle (not_le.mpr h0)
        simp only [Tiling.czlLoop, if_pos hlr2, if_pos hle, if_neg hgt]
        refine ih left (left + (right - left) / 2 - 1) (left + (right - left) / 2)
          (by omega) (by omega) hfalse ?_ (fun _ => by omega) (by omega)
        intro j hj hjlen
        exact le_trans (hmono (left + (right - left) / 2) j (by omega) hjlen) hle
    · simp only [Tiling.czlLoop, if_neg hlr2]
      rcases Nat.lt_or_ge (right + 1) res.length with hrl | hrl
      · have hz := hzoom hrl
        subst hz
        exact ⟨hrl, htrue (right + 1) (Nat.lt_succ_self right) hrl,
          fun j hj => hfalse j (by omega)⟩
      · exfalso
        have : r < res.getD (res.length - 1) 0 := hfalse (res.length - 1) (by omega)
        exact absurd hlast (not_le.mpr this)

/-- Claim C2 (corrected): on a non-empty strictly decreasing resolution
table, `get_closest_lower_zoom(r)` is a valid index; it returns `0` when
`r ≥ resolutions[0]` and the last index when `r ≤ resolutions[last]`
(the claim's boundary cases); but in general it returns the *smallest*
index whose resolution is `≤ r` (the first zoom at least as fine as the
query) whenever one exists, not the largest index with resolution `≥ r`. -/
theorem getClosestLowerZoom_first_le (t : Tiling) (r : ℚ)
    (hne : t.zoomResolutions ≠ [])
    (hsorted : List.Pairwise (· > ·) t.zoomResolutions) :
    t.getClosestLowerZoom r < t.zoomResolutions.length ∧
    (t.zoomResolutions.getD 0 0 ≤ r → t.getClosestLowerZoom r = 0) ∧
    (r ≤ t.zoomResolutions.getD (t.zoomResolutions.length - 1) 0 →
      t.getClosestLowerZoom r = t.zoomResolutions.length - 1) ∧
    (t.zoomResolutions.getD (t.zoomResolutions.length - 1) 0 ≤ r →
      t.zoomResolutions.getD (t.getClosestLowerZoom r) 0 ≤ r ∧
      ∀ j < t.getClosestLowerZoom r, r < t.zoomResolutions.getD j 0) ∧
    (r < t.zoomResolutions.getD (t.zoomResolutions.length - 1) 0 →
      t.getClosestLowerZoom r = t.zoomResolutions.length - 1) := by
  have hlen : 0 < t.zoomResolutions.length := List.length_pos.mpr hne
  have hmono : ∀ i j : ℕ, i ≤ j → j < t.zoomResolutions.length →
      t.zoomResolutions.getD j 0 ≤ t.zoomResolutions.getD i 0 := by
    intro i j hij hj
    rcases Nat.eq_or_lt_of_le hij with rfl | hlt
    · exact le_refl _
    · have hi : i < t.zoomResolutions.length := lt_trans hlt hj
      rw [List.getD_eq_getElem _ _ hj, List.getD_eq_getElem _ _ hi]
      have := List.pairwise_iff_get.mp hsorted ⟨i, hi⟩ ⟨j, hj⟩ hlt
      simp only [List.get_eq_getElem] at this
      exact le_of_lt this
  have hstrict : ∀ i j : ℕ, i < j → j < t.zoomResolutions.length →
      t.zoomResolutions.getD j 0 < t.zoomResolutions.getD i 0 := by
    intro i j hij hj
    have hi : i < t.zoomResolutions.length := lt_trans hij hj
    rw [List.getD_eq_getElem _ _ hj, List.getD_eq_getElem _ _ hi]
    have := List.pairwise_iff_get.mp hsorted ⟨i, hi⟩ ⟨j, hj⟩ hij
    simpa using this
  by_cases hc1 : r ≥ t.zoomResolutions.getD 0 0
  · have hres : t.getClosestLowerZoom r = 0 := by
      simp only [Tiling.getClosestLowerZoom, if_pos hlen, if_pos hc1]
    rw [hres]
    refine ⟨hlen, fun _ => rfl, ?_, fun h => ⟨hc1, fun j hj => absurd hj (by omega)⟩, ?_⟩
    · intro h2
      rcases Nat.eq_or_lt_of_le (Nat.one_le_iff_ne_zero.mpr
        (Nat.pos_iff_ne_zero.mp hlen)) with h1 | h1
      · omega
      · exfalso
        have := hstrict 0 (t.zoomResolutions.length - 1) (by omega) (by omega)
        exact absurd (le_trans hc1 h2) (not_le.mpr this)
    · intro h2
      exfalso
      have hle := hmono 0 (t.zoomResolutions.length - 1) (by omega) (by omega)
      exact absurd (lt_of_le_of_lt (le_trans hle hc1) h2) (lt_irrefl _)
  · by_cases hc2 : r ≤ t.zoomResolutions.getD (t.zoomResolutions.length - 1) 0
    · have hres : t.getClosestLowerZoom r = t.zoomResolutions.length - 1 := by
        simp only [Tiling.getClosestLowerZoom, if_pos hlen, if_neg hc1, if_pos hc2]
      rw [hres]
      refine ⟨by omega, fun h => absurd h (by exact fun h => hc1 h), fun _ => rfl,
        ?_, fun _ => rfl⟩
      intro h
      have heq : t.zoomResolutions.getD (t.zoomResolutions.length - 1) 0 = r :=
        le_antisymm h hc2
      exact ⟨heq.le, fun j hj => heq ▸ hstrict j (t.zoomResolutions.length - 1)
        hj (by omega)⟩
    · have h0 : r < t.zoomResolutions.getD 0 0 := not_le.mp hc1
      have hlast : t.zoomResolutions.getD (t.zoomResolutions.length - 1) 0 ≤ r :=
        le_of_lt (not_le.mp hc2)
      have hres : t.getClosestLowerZoom r =
          Tiling.czlLoop t.zoomResolutions r (t.zoomResolutions.length + 1) 0
            (t.zoomResolutions.length - 1) 0 := by
        simp only [Tiling.getClosestLowerZoom, if_pos hlen, if_neg hc1, if_neg hc2]
      have hloop := czlLoop_first_le t.zoomResolutions r hmono h0 hlast
        (t.zoomResolutions.length + 1) 0 (t.zoomResolutions.length - 1) 0
        (by omega) (by omega) (fun j hj => absurd hj (by omega))
        (fun j hj hjl => absurd hjl (by omega)) (fun h => absurd h (by omega))
        (by omega)
      rw [hres]
      exact ⟨hloop.1, fun h => absurd h hc1, fun h => absurd h hc2,
        fun _ => ⟨hloop.2.1, hloop.2.2⟩, fun h => absurd (le_of_lt h) hc2⟩

/-- Claim C2 witness: on the table `[8, 4, 2, 1]` with query `5`, the
result satisfies the first-index-at-most characterisation. -/
theorem getClosestLowerZoom_first_le_witness :
    sampleTiling.zoomResolutions.getD (sampleTiling.getClosestLowerZoom 5) 0 ≤ 5 ∧
    ∀ j < sampleTiling.getClosestLowerZoom 5,
      (5 : ℚ) < sampleTiling.zoomResolutions.getD j 0 :=
  (getClosestLowerZoom_first_le sampleTiling 5
    (by with_unfolding_all decide) (by with_unfolding_all decide)).2.2.2.1
    (by with_unfolding_all decide)

/-- Claim C2 counterexample: on the table `[8, 4, 2, 1]` the query `5`
returns index 1, whose resolution 4 is *not* `≥ 5`, although index 0
satisfies `resolutions[0] = 8 ≥ 5`; so the result is not the largest
index with resolution `≥ r`. -/
theorem getClosestLowerZoom_not_largest_ge :
    sampleTiling.getClosestLowerZoom 5 = 1 ∧
    (5 : ℚ) ≤ sampleTiling.zoomResolutions.getD 0 0 ∧
    ¬((5 : ℚ) ≤ sampleTiling.zoomResolutions.getD 1 0) := by
  refine ⟨?_, ?_, ?_⟩ <;> with_unfolding_all decide

/-- Membership in Rust's inclusive range `a..=b`. -/
theorem mem_intRange {a b x : ℤ} : x ∈ intRange a b ↔ a ≤ x ∧ x ≤ b := by
  unfold intRange
  simp only [List.mem_map, List.mem_range]
  constructor
  · rintro ⟨i, hi, rfl⟩
    omega
  · rintro ⟨h1, h2⟩
    exact ⟨(x - a).toNat, by omega, by omega⟩

/-- Membership in a conditional singleton. -/
theorem mem_ite_singleton {α : Type} {c : Prop} [Decidable c] {a x : α} :
    (x ∈ if c then [a] else []) ↔ c ∧ x = a := by
  split <;> rename_i h <;> simp [h]

/-- Claim C4 (confirmed): every tile id produced by `tile_ids_in_view`
is at the current discrete zoom, with `x` and `y` in `[0, max_x_y]`, and
its bbox polygon passes the view-bounds intersection test; and a tile id
of the clamped corner rectangle is in the output exactly when its bbox
passes the intersection test (so none is omitted).  The `geo` polygon
intersection is the abstract parameter `inter`. -/
theorem tileIdsInView_spec (inter : List Coord → List Coord → Bool)
    (t : Tiling) (ms : MapState) (rect : Tiling.Rect) (lt lb rt rb : TileId)
    (hbr : boundingRect ms.viewBounds = some rect)
    (hlt : t.getTileId ms.zoom ⟨rect.xmin, rect.ymax⟩ = some lt)
    (hlb : t.getTileId ms.zoom ⟨rect.xmin, rect.ymin⟩ = some lb)
    (hrt : t.getTileId ms.zoom ⟨rect.xmax, rect.ymax⟩ = some rt)
    (hrb : t.getTileId ms.zoom ⟨rect.xmax, rect.ymin⟩ = some rb) :
    (∀ tid ∈ tileIdsInView inter t ms,
      tid.z = ms.zoom ∧ 0 ≤ tid.x ∧ tid.x ≤ t.getMaxXY ms.zoom ∧
      0 ≤ tid.y ∧ tid.y ≤ t.getMaxXY ms.zoom ∧
      tileKept inter t ms.viewBounds tid = true) ∧
    (∀ tid, tid ∈ tileIdsInView inter t ms ↔
      (tid.z = ms.zoom ∧
       max (min (min (min lt.x lb.x) rt.x) rb.x) 0 ≤ tid.x ∧
       tid.x ≤ min (max (max (max lt.x lb.x) rt.x) rb.x) (t.getMaxXY ms.zoom) ∧
       max (min (min (min lt.y lb.y) rt.y) rb.y) 0 ≤ tid.y ∧
       tid.y ≤ min (max (max (max lt.y lb.y) rt.y) rb.y) (t.getMaxXY ms.zoom) ∧
       tileKept inter t ms.viewBounds tid = true)) := by
  have hiff : ∀ tid, tid ∈ tileIdsInView inter t ms ↔
      (tid.z = ms.zoom ∧
       max (min (min (min lt.x lb.x) rt.x) rb.x) 0 ≤ tid.x ∧
       tid.x ≤ min (max (max (max lt.x lb.x) rt.x) rb.x) (t.getMaxXY ms.zoom) ∧
       max (min (min (min lt.y lb.y) rt.y) rb.y) 0 ≤ tid.y ∧
       tid.y ≤ min (max (max (max lt.y lb.y) rt.y) rb.y) (t.getMaxXY ms.zoom) ∧
       tileKept inter t ms.viewBounds tid = true) := by
    intro tid
    unfold tileIdsInView
    simp only [hbr, hlt, hlb, hrt, hrb]
    simp only [List.mem_flatMap, mem_intRange, mem_ite_singleton]
    constructor
    · rintro ⟨x, ⟨hx1, hx2⟩, y, ⟨hy1, hy2⟩, hkept, rfl⟩
      exact ⟨rfl, hx1, hx2, hy1, hy2, hkept⟩
    · rintro ⟨hz, hx1, hx2, hy1, hy2, hkept⟩
      rcases tid with ⟨z, x, y⟩
      cases hz
      exact ⟨x, ⟨hx1, hx2⟩, y, ⟨hy1, hy2⟩, hkept, rfl⟩
  refine ⟨?_, hiff⟩
  intro tid htid
  obtain ⟨hz, hx1, hx2, hy1, hy2, hkept⟩ := (hiff tid).mp htid
  exact ⟨hz, le_trans (le_max_right _ 0) hx1, le_trans hx2 (min_le_right _ _),
    le_trans (le_max_right _ 0) hy1, le_trans hy2 (min_le_right _ _), hkept⟩

/-- Claim C4 witness: on the concrete state (zoom 1, view bounds
`[-3, 3]^2`) the corner tiles are `(1,0,0) … (1,1,1)` and the tile
`(1,0,0)` is enumerated under the always-true intersection test. -/
theorem tileIdsInView_spec_witness :
    (⟨1, 0, 0⟩ : TileId) ∈ tileIdsInView (fun _ _ => true) sampleTiling sampleState :=
  ((tileIdsInView_spec (fun _ _ => true) sampleTiling sampleState
      ⟨-3, -3, 3, 3⟩ ⟨1, 0, 0⟩ ⟨1, 0, 1⟩ ⟨1, 1, 0⟩ ⟨1, 1, 1⟩
      (by with_unfolding_all decide) (by with_unfolding_all decide)
      (by with_unfolding_all decide) (by with_unfolding_all decide)
      (by with_unfolding_all decide)).2 ⟨1, 0, 0⟩).mpr
    (by with_unfolding_all decide)

/-- Claim C1 (corrected): with pitch 0 (any yaw, center, resolution and
viewport) `to_screen ∘ to_map` is the exact identity on screen points. -/
theorem toScreen_toMap_roundtrip_pitch_zero (c : ProjCtx) (s : CoordR)
    (hp : c.pitch = 0) (hres : c.zoomRes * c.mapResRatio ≠ 0) :
    toScreen c (toMap c s) = s := by
  obtain ⟨w, h, p, yw, ⟨cx, cy⟩, zr, mr⟩ := c
  obtain ⟨sx, sy⟩ := s
  simp only at hp hres
  subst hp
  have hrad0 : toRadians 0 = 0 := by simp [toRadians]
  have htrig := Real.sin_sq_add_cos_sq (toRadians yw)
  simp only [toMap, toScreen, cameraEye, cameraTarget, rotX, rotZ, V3.add,
    V3.sub, V3.smul, V3.dot, hrad0, Real.sin_zero, Real.cos_zero, neg_zero,
    mul_zero, zero_mul, mul_one, one_mul, add_zero, zero_add, sub_zero,
    zero_sub, zero_div, CoordR.mk.injEq]
  constructor
  · field_simp
    linear_combination (4 * zr * mr * sx - 2 * w * zr * mr) * htrig
  · field_simp
    linear_combination (8 * zr ^ 2 * mr ^ 2 * sy - 4 * h * zr ^ 2 * mr ^ 2) * htrig

/-- Claim C1 witness: the round trip is the identity on the concrete
pitch-0 state with yaw 30°, center (5, 7) and resolution 2. -/
theorem toScreen_toMap_roundtrip_pitch_zero_witness :
    toScreen ctx0 (toMap ctx0 ⟨3, 1⟩) = ⟨3, 1⟩ :=
  toScreen_toMap_roundtrip_pitch_zero ctx0 ⟨3, 1⟩ rfl (by norm_num [ctx0])

/-- Claim C1 counterexample: on a 4×4 viewport with pitch 45°, yaw 0,
unit resolution and center (0, 0), the in-view screen point (2, 1) has a
ray that is not parallel to the map plane (`ray.z = -√2/2`), maps to the
map point (0, 2√2), but projects back to the screen point (2, 0) — off
by a full pixel, far beyond any 1e-6 relative tolerance.  `to_screen` is
therefore not the inverse of `to_map` under non-zero pitch. -/
theorem toScreen_not_inverse_of_toMap :
    toMapRayZ ctx45 ⟨2, 1⟩ ≠ 0 ∧
    toMap ctx45 ⟨2, 1⟩ = ⟨0, 2 * Real.sqrt 2⟩ ∧
    toScreen ctx45 (toMap ctx45 ⟨2, 1⟩) = ⟨2, 0⟩ ∧
    |(toScreen ctx45 (toMap ctx45 ⟨2, 1⟩)).y - (1 : ℝ)| > 1e-6 * |(1 : ℝ)| := by
  have h45 : toRadians (45 : ℝ) = Real.pi / 4 := by unfold toRadians; ring
  have h0 : toRadians (0 : ℝ) = 0 := by unfold toRadians; ring
  have hsq : Real.sqrt 2 > 0 := Real.sqrt_pos.mpr (by norm_num)
  have hs2 : Real.sqrt 2 ^ 2 = 2 := Real.sq_sqrt (by norm_num)
  have goal1 : toMapRayZ ctx45 ⟨2, 1⟩ ≠ 0 := by
    simp only [toMapRayZ, ctx45, cameraEye, cameraTarget, rotX, rotZ, V3.add,
      V3.sub, V3.smul, V3.dot, h45, h0, Real.sin_pi_div_four,
      Real.cos_pi_div_four, Real.sin_zero, Real.cos_zero, mul_zero, zero_mul,
      mul_one, one_mul, add_zero, zero_add, sub_zero, zero_sub, sub_self,
      zero_div, neg_zero]
    intro hcontra
    ring_nf at hcontra
    linarith
  have goal2 : toMap ctx45 ⟨2, 1⟩ = ⟨0, 2 * Real.sqrt 2⟩ := by
    simp only [toMap, ctx45, cameraEye, cameraTarget, rotX, rotZ, V3.add,
      V3.sub, V3.smul, V3.dot, h45, h0, Real.sin_pi_div_four,
      Real.cos_pi_div_four, Real.sin_zero, Real.cos_zero, mul_zero, zero_mul,
      mul_one, one_mul, add_zero, zero_add, sub_zero, zero_sub, sub_self,
      zero_div, neg_zero, CoordR.mk.injEq]
    have hden : ((4 : ℝ) / 2 - 1) * (Real.sqrt 2 / 2) -
        4 / 2 * (Real.sqrt 2 / 2) ≠ 0 := by
      intro h; ring_nf at h; linarith
    constructor
    · norm_num
    · field_simp [hden, hsq.ne']
      ring_nf
      have h2 : Real.sqrt 2 ^ 2 * (Real.sqrt 2)⁻¹ = Real.sqrt 2 := by
        rw [pow_two, mul_assoc, mul_inv_cancel₀ hsq.ne', mul_one]
      linear_combination 6 * h2
  have goal3 : toScreen ctx45 ⟨0, 2 * Real.sqrt 2⟩ = ⟨2, 0⟩ := by
    simp only [toScreen, ctx45, cameraEye, cameraTarget, rotX, rotZ, V3.add,
      V3.sub, V3.smul, V3.dot, h45, h0, Real.sin_pi_div_four,
      Real.cos_pi_div_four, Real.sin_zero, Real.cos_zero, mul_zero, zero_mul,
      mul_one, one_mul, add_zero, zero_add, sub_zero, zero_sub, sub_self,
      zero_div, neg_zero, neg_neg, Real.sin_neg, Real.cos_neg, CoordR.mk.injEq]
    have hD : (4 / 2 * (Real.sqrt 2 / 2) * -(Real.sqrt 2 / 2) +
        -(4 / 2 * (Real.sqrt 2 / 2)) * (Real.sqrt 2 / 2)) ≠ 0 := by
      intro h
      ring_nf at h
      linarith [hs2]
    have hT : -(2 * Real.sqrt 2 / 1 * -(Real.sqrt 2 / 2)) /
        (4 / 2 * (Real.sqrt 2 / 2) * -(Real.sqrt 2 / 2) +
          -(4 / 2 * (Real.sqrt 2 / 2)) * (Real.sqrt 2 / 2)) = -1 := by
      rw [div_eq_iff hD]
      ring
    rw [hT]
    constructor
    · norm_num
    · ring_nf
      linarith [hs2]
  have goal4 : toScreen ctx45 (toMap ctx45 ⟨2, 1⟩) = ⟨2, 0⟩ := by
    rw [goal2]; exact goal3
  refine ⟨goal1, goal2, goal4, ?_⟩
  rw [goal4]
  norm_num

end Mapsdk
